import Mathlib

/-!
Verification of the size-constrained image resizer (`src/main.py`).

The development shallowly embeds the two core components:

* `ImageResizer.resize_image` (Python, lines 17-101): the quality/scale
  search loop.  The PIL encoder is abstracted as a function
  `enc : Nat → Nat → Nat → Nat` mapping `(quality, width, height)` to the
  byte size of the encoded artifact; the decoded image is a pair of its
  dimensions (`Option` to model a decode failure, i.e. the `except` path).
  The Python loop has no bound, so the embedding is fuel-indexed and
  returns `none` for the result when the fuel runs out; the accumulated
  list of encode attempts is returned in every case.

  The Python float `scale_factor` only ever holds the values `0.9 ^ k`;
  it is modelled exactly as the rational `scaleN / scaleD` with
  `scaleN = 9 ^ k` and `scaleD = 10 ^ k` (always coprime, so this is the
  reduced form).  The reachable comparisons `scale_factor < 1.0` and
  `scale_factor < 0.3` are far from the double-precision error margin, so
  the exact-rational model agrees with the float semantics there, and
  `int(width * scale_factor)` (truncation of a nonnegative value) is the
  rational floor `width * scaleN / scaleD` in natural-number division.

* `ResizeWorker.run` (lines 116-138): the batch driver.  `resize_image`'s
  behaviour per file is abstracted as
  `resizeFn : String → String → Bool × Nat` (input path, output path ↦
  the returned `(success, file_size)`), and the cooperatively read
  `self.running` flag as `running : Nat → Bool`, giving the value read at
  the check preceding the file with index `i`.  Emitted Qt signals are
  modelled as an ordered list of `Event`s.  Python's
  `int((i + 1) / len(self.files) * 100)` is modelled in exact arithmetic
  as the natural-number division `(i + 1) * 100 / len(self.files)`.
-/

/-- Resampling filters of the PIL API (`Image.LANCZOS` is the only one the
source uses, at line 55). -/
inductive ResampleFilter where
  | lanczos
  | nearest
  | bilinear
  | bicubic
deriving DecidableEq, Repr

/-- One iteration of the search loop of `resize_image`: the quality and
scale (as the exact rational `scaleN / scaleD`) in force, whether
`img.resize` was called (and with which filter), the pixel dimensions
handed to `save`, and the measured byte size of the temporary artifact. -/
structure Attempt where
  quality : Nat
  scaleN : Nat
  scaleD : Nat
  resampled : Bool
  usedFilter : Option ResampleFilter
  encW : Nat
  encH : Nat
  size : Nat
deriving DecidableEq, Repr

namespace ImageResizer

/-- Lines 52-64 of src/main.py, one pass: what one loop iteration at state
`(quality, scale = sN / sD)` resamples, encodes and measures.
`if scale_factor < 1.0` ⟺ `sN < sD`; the resampled dimensions
`(int(width * scale_factor), int(height * scale_factor))` are the exact
truncations `(width * sN / sD, height * sN / sD)`; `enc quality w h` is
the byte size `os.path.getsize` measures after
`resized_img.save(..., quality=quality)` at pixel dimensions `(w, h)`. -/
def attemptAt (enc : Nat → Nat → Nat → Nat) (width height quality sN sD : Nat) : Attempt :=
  let dims : Nat × Nat :=
    if sN < sD then (width * sN / sD, height * sN / sD) else (width, height)
  ⟨quality, sN, sD, decide (sN < sD),
    if sN < sD then some ResampleFilter.lanczos else none,
    dims.1, dims.2, enc quality dims.1 dims.2⟩

/-- The main `while True:` loop of `resize_image` (src/main.py lines 50-97),
fuel-indexed.  Returns the value of the Python `return` statement (`none`
if the fuel is exhausted before the loop returns) together with the trace
of attempts.  The scale update and check
`scale_factor *= 0.9; if scale_factor < 0.3` translate to the exact
comparison `(sN * 9) / (sD * 10) < 3 / 10` ⟺
`10 * (sN * 9) < 3 * (sD * 10)`. -/
def resizeLoop (enc : Nat → Nat → Nat → Nat) (width height minB maxB : Nat) :
    Nat → Nat → Nat → Nat → List Attempt → Option (Bool × Nat) × List Attempt
  | 0, _, _, _, acc => (none, acc)
  | fuel + 1, quality, sN, sD, acc =>
    let att := attemptAt enc width height quality sN sD
    let sz := att.size
    let acc' := acc ++ [att]
    -- `if min_size_bytes <= file_size <= max_size_bytes: return True, file_size`
    if minB ≤ sz ∧ sz ≤ maxB then (some (true, sz), acc')
    else if maxB < sz then
      -- `if quality > min_quality: quality -= 5`
      if 10 < quality then resizeLoop enc width height minB maxB fuel (quality - 5) sN sD acc'
      else
        -- `scale_factor *= 0.9; if scale_factor < 0.3: return False, file_size`
        if 10 * (sN * 9) < 3 * (sD * 10) then (some (false, sz), acc')
        else resizeLoop enc width height minB maxB fuel quality (sN * 9) (sD * 10) acc'
    else
      -- `file_size < min_size_bytes`: `if quality < 95: quality += 5` else `return True, file_size`
      if quality < 95 then resizeLoop enc width height minB maxB fuel (quality + 5) sN sD acc'
      else (some (true, sz), acc')

/-- Function `ImageResizer.resize_image` (src/main.py lines 17-101).  `decoded` is
the result of `Image.open` (`none` when decoding raises, reaching the
`except` branch that returns `(False, 0)`); `target` is `target_size_kb`.
The byte band is `(target[0] * 1024, target[1] * 1024)` and the loop
starts from `quality = 90`, `scale_factor = 1.0 = 1 / 1`. -/
def resize_image (decoded : Option (Nat × Nat)) (enc : Nat → Nat → Nat → Nat)
    (target : Nat × Nat) (fuel : Nat) : Option (Bool × Nat) × List Attempt :=
  match decoded with
  | none => (some (false, 0), [])
  | some (w, h) => resizeLoop enc w h (target.1 * 1024) (target.2 * 1024) fuel 90 1 1 []

end ImageResizer

/-- ASCII lower-casing of one character, as `str.lower()` acts on the
ASCII range (file extensions compared by the source are ASCII). -/
def asciiLower (c : Char) : Char :=
  if 'A' ≤ c ∧ c ≤ 'Z' then Char.ofNat (c.toNat + 32) else c

/-- Python `os.path.basename` on the character list: the part of the path after
the last `/`. -/
def basenameChars (cs : List Char) : List Char :=
  (cs.reverse.takeWhile (fun c => c ≠ '/')).reverse

/-- Python `os.path.basename(file_path)` (src/main.py line 122). -/
def basename (p : String) : String :=
  String.mk (basenameChars p.data)

/-- The extension part of `os.path.splitext` applied to a basename `b`:
the suffix of `b` from its last dot onward, provided some character
before that dot is not itself a dot (so `".bashrc"` and `"...jpg"` have
no extension), else empty.  When `b` has no dot, `b.reverse.indexOf` is
`b.length`, the subtraction truncates to `0` and the guard fails. -/
def extOf (b : List Char) : List Char :=
  let dotIdx := b.length - 1 - b.reverse.indexOf '.'
  if (b.take dotIdx).any (fun c => c ≠ '.') then b.drop dotIdx else []

/-- Python `os.path.splitext(file_path)[1].lower()` (src/main.py line 126).
`splitext` only considers dots after the last path separator, i.e. within
the basename. -/
def fileExt (p : String) : String :=
  String.mk ((extOf (basenameChars p.data)).map asciiLower)

/-- Python `os.path.join(output_dir, file_name)` for a relative `file_name`
(posix rules; the basename never starts with `/`). -/
def joinPath (d f : String) : String :=
  if d.data = [] then f
  else if d.data.getLast? = some '/' then String.mk (d.data ++ f.data)
  else String.mk (d.data ++ '/' :: f.data)

/-- The accepted extensions `['.jpg', '.jpeg', '.png', '.bmp', '.webp']`
(src/main.py line 127). -/
def supportedExts : List String :=
  [".jpg", ".jpeg", ".png", ".bmp", ".webp"]

/-- The extension filter of `ResizeWorker.run`: `ext in [...]`. -/
def fileAccepted (f : String) : Bool :=
  decide (fileExt f ∈ supportedExts)

/-- The signals a `ResizeWorker` emits, in emission order:
`progress_updated(int)`, `file_processed(str, bool, int)` and
`resize_completed(list)`.  A result entry is the tuple
`(file_path, output_path, success, file_size)` appended at line 131. -/
inductive Event where
  | progress (percent : Nat)
  | fileDone (name : String) (success : Bool) (size : Nat)
  | jobDone (results : List (String × String × Bool × Nat))
deriving DecidableEq, Repr

namespace ResizeWorker

/-- The `for i, file_path in enumerate(self.files)` loop of
`ResizeWorker.run` (src/main.py lines 116-138).  `i` is the index of the
head of `files` in the original list, `total` is `len(self.files)`, and
`running i` is the value of `self.running` read at the `if not
self.running: break` check before the file with index `i`. -/
def runAux (resizeFn : String → String → Bool × Nat) (outputDir : String)
    (running : Nat → Bool) (total : Nat) :
    Nat → List String → List (String × String × Bool × Nat) → List Event
  | _, [], results => [Event.jobDone results]
  | i, f :: rest, results =>
    -- `if not self.running: break`
    if running i = false then [Event.jobDone results]
    else
      let name := basename f
      let outPath := joinPath outputDir name
      -- `if ext not in ['.jpg', '.jpeg', '.png', '.bmp', '.webp']: continue`
      if fileAccepted f then
        -- `success, file_size = ImageResizer.resize_image(file_path, output_path, ...)`
        let r := resizeFn f outPath
        -- `progress = int((i + 1) / len(self.files) * 100)`
        let percent := (i + 1) * 100 / total
        Event.progress percent :: Event.fileDone name r.1 r.2 ::
          runAux resizeFn outputDir running total (i + 1) rest (results ++ [(f, outPath, r)])
      else runAux resizeFn outputDir running total (i + 1) rest results

/-- Method `ResizeWorker.run` on a file list, with `self.running` read as
`running i` before the `i`-th file. -/
def run (resizeFn : String → String → Bool × Nat) (files : List String)
    (outputDir : String) (running : Nat → Bool) : List Event :=
  runAux resizeFn outputDir running files.length 0 files []

end ResizeWorker

/-- The percentages of the `progress_updated` signals, in order. -/
def progressPercents (evs : List Event) : List Nat :=
  evs.filterMap fun e =>
    match e with
    | Event.progress p => some p
    | _ => none

/-- The payloads of the `resize_completed` signals, in order. -/
def jobDonePayloads (evs : List Event) :
    List (List (String × String × Bool × Nat)) :=
  evs.filterMap fun e =>
    match e with
    | Event.jobDone rs => some rs
    | _ => none

/-- The `file_processed` signals, in order. -/
def fileDoneEvents (evs : List Event) : List (String × Bool × Nat) :=
  evs.filterMap fun e =>
    match e with
    | Event.fileDone n s b => some (n, s, b)
    | _ => none

/-- Number of files passing the extension filter. -/
def countAccepted (files : List String) : Nat :=
  (files.filter fileAccepted).length

/-- Indices (offset by `i`) of the files passing the extension filter. -/
def acceptedIdxFrom (i : Nat) : List String → List Nat
  | [] => []
  | f :: rest =>
    if fileAccepted f then i :: acceptedIdxFrom (i + 1) rest
    else acceptedIdxFrom (i + 1) rest

/-- The result tuples the worker accumulates for a file list when nothing
stops it: one per accepted file, in input order. -/
def acceptedOutcomes (resizeFn : String → String → Bool × Nat)
    (outputDir : String) (files : List String) :
    List (String × String × Bool × Nat) :=
  (files.filter fileAccepted).map fun f =>
    (f, joinPath outputDir (basename f), resizeFn f (joinPath outputDir (basename f)))

open ImageResizer

/-- The size measured by an attempt at full scale is the size of the
original buffer. -/
lemma attemptAt_size_full (enc : Nat → Nat → Nat → Nat) (w h q : Nat) :
    (attemptAt enc w h q 1 1).size = enc q w h := by
  simp [attemptAt]

/-- Claim C7: an image whose encoded size at the initial state `quality = 90`,
`scale = 1.0` already lies in `[min_bytes, max_bytes]` makes
`resize_image` return `(True, size)` after the single first attempt, and
that attempt is not resampled (`scale_factor < 1.0` is false, so the
original buffer is saved as-is at the original dimensions). -/
theorem resize_first_attempt_in_band (enc : Nat → Nat → Nat → Nat)
    (w h minKB maxKB fuel : Nat)
    (h1 : minKB * 1024 ≤ enc 90 w h) (h2 : enc 90 w h ≤ maxKB * 1024) :
    resize_image (some (w, h)) enc (minKB, maxKB) (fuel + 1)
        = (some (true, enc 90 w h), [attemptAt enc w h 90 1 1])
      ∧ (attemptAt enc w h 90 1 1).resampled = false
      ∧ (attemptAt enc w h 90 1 1).usedFilter = none
      ∧ (attemptAt enc w h 90 1 1).encW = w
      ∧ (attemptAt enc w h 90 1 1).encH = h := by
  refine ⟨?_, by simp [attemptAt], by simp [attemptAt], by simp [attemptAt], by simp [attemptAt]⟩
  simp only [resize_image, resizeLoop, attemptAt_size_full]
  rw [if_pos ⟨h1, h2⟩, List.nil_append]

theorem resize_first_attempt_in_band_witness :
    resize_image (some (50, 40)) (fun _ _ _ => 200 * 1024) (100, 1024) 1
        = (some (true, 200 * 1024), [attemptAt (fun _ _ _ => 200 * 1024) 50 40 90 1 1])
      ∧ (attemptAt (fun _ _ _ => 200 * 1024) 50 40 90 1 1).resampled = false
      ∧ (attemptAt (fun _ _ _ => 200 * 1024) 50 40 90 1 1).usedFilter = none
      ∧ (attemptAt (fun _ _ _ => 200 * 1024) 50 40 90 1 1).encW = 50
      ∧ (attemptAt (fun _ _ _ => 200 * 1024) 50 40 90 1 1).encH = 40 :=
  resize_first_attempt_in_band (fun _ _ _ => 200 * 1024) 50 40 100 1024 0
    (by decide) (by decide)

/-- Characterization of the `achieved` flag: whenever the loop returns,
the flag is `True` exactly when the final size is in band or under the
minimum; the only `False` return is the over-maximum scale-floor exit. -/
lemma resizeLoop_achieved_iff (enc : Nat → Nat → Nat → Nat) (w h minB maxB : Nat)
    (hband : minB ≤ maxB) :
    ∀ fuel q sN sD acc ach sz,
      (resizeLoop enc w h minB maxB fuel q sN sD acc).1 = some (ach, sz) →
      (ach = true ↔ (minB ≤ sz ∧ sz ≤ maxB) ∨ sz < minB) := by
  intro fuel
  induction fuel with
  | zero => intro q sN sD acc ach sz hres; simp [resizeLoop] at hres
  | succ n ih =>
    intro q sN sD acc ach sz hres
    simp only [resizeLoop] at hres
    by_cases hin :
        minB ≤ (attemptAt enc w h q sN sD).size ∧ (attemptAt enc w h q sN sD).size ≤ maxB
    · rw [if_pos hin] at hres
      simp only [Option.some.injEq, Prod.mk.injEq] at hres
      obtain ⟨hach, hsz⟩ := hres
      subst hach; subst hsz
      exact iff_of_true rfl (Or.inl hin)
    · rw [if_neg hin] at hres
      by_cases hover : maxB < (attemptAt enc w h q sN sD).size
      · rw [if_pos hover] at hres
        by_cases hq : 10 < q
        · rw [if_pos hq] at hres
          exact ih _ _ _ _ _ _ hres
        · rw [if_neg hq] at hres
          by_cases hdec : 10 * (sN * 9) < 3 * (sD * 10)
          · rw [if_pos hdec] at hres
            simp only [Option.some.injEq, Prod.mk.injEq] at hres
            obtain ⟨hach, hsz⟩ := hres
            subst hach; subst hsz
            exact iff_of_false (by simp) (by omega)
          · rw [if_neg hdec] at hres
            exact ih _ _ _ _ _ _ hres
      · rw [if_neg hover] at hres
        by_cases hq95 : q < 95
        · rw [if_pos hq95] at hres
          exact ih _ _ _ _ _ _ hres
        · rw [if_neg hq95] at hres
          simp only [Option.some.injEq, Prod.mk.injEq] at hres
          obtain ⟨hach, hsz⟩ := hres
          subst hach; subst hsz
          exact iff_of_true rfl (by omega)

/-- Claim C5: (a) an encode attempt under the minimum while the quality has
saturated at `95` makes the loop emit that artifact and return
`(True, size)`; (b) the `achieved` flag is `True` in exactly the in-band
case and the under-minimum case. -/
theorem resize_under_min_saturated (enc : Nat → Nat → Nat → Nat)
    (w h minB maxB fuel q sN sD : Nat) (acc : List Attempt) (ach : Bool) (sz : Nat)
    (hband : minB ≤ maxB) :
    (¬ q < 95 → (attemptAt enc w h q sN sD).size < minB →
      resizeLoop enc w h minB maxB (fuel + 1) q sN sD acc
        = (some (true, (attemptAt enc w h q sN sD).size), acc ++ [attemptAt enc w h q sN sD]))
    ∧ ((resizeLoop enc w h minB maxB fuel q sN sD acc).1 = some (ach, sz) →
      (ach = true ↔ (minB ≤ sz ∧ sz ≤ maxB) ∨ sz < minB)) := by
  constructor
  · intro hq hsz
    have h1 : ¬ (minB ≤ (attemptAt enc w h q sN sD).size
        ∧ (attemptAt enc w h q sN sD).size ≤ maxB) := by omega
    have h2 : ¬ maxB < (attemptAt enc w h q sN sD).size := by omega
    simp only [resizeLoop]
    rw [if_neg h1, if_neg h2, if_neg hq]
  · exact resizeLoop_achieved_iff enc w h minB maxB hband fuel q sN sD acc ach sz

theorem resize_under_min_saturated_witness :
    resizeLoop (fun _ _ _ => 1000) 100 100 (100 * 1024) (1024 * 1024) 3 95 1 1 []
        = (some (true, (attemptAt (fun _ _ _ => 1000) 100 100 95 1 1).size),
            [] ++ [attemptAt (fun _ _ _ => 1000) 100 100 95 1 1])
      ∧ (true = true ↔ (100 * 1024 ≤ 1000 ∧ 1000 ≤ 1024 * 1024) ∨ 1000 < 100 * 1024) :=
  ⟨(resize_under_min_saturated (fun _ _ _ => 1000) 100 100 (100 * 1024) (1024 * 1024) 2 95 1 1
      [] true 1000 (by decide)).1 (by decide) (by decide),
    (resize_under_min_saturated (fun _ _ _ => 1000) 100 100 (100 * 1024) (1024 * 1024) 2 95 1 1
      [] true 1000 (by decide)).2 (by decide)⟩

/-- Claim C6: at the quality floor (`quality > 10` fails), with the attempt
still over the maximum and the decayed scale below `0.3`
(`10 * (sN * 9) < 3 * (sD * 10)` ⟺ `scale * 0.9 < 0.3`), the loop
terminates returning `(False, size)`, where `size` is the byte size of
the attempt just produced; that attempt is the last element of the trace
(the artifact moved to the output path) and is non-empty. -/
theorem resize_scale_floor_exit (enc : Nat → Nat → Nat → Nat)
    (w h minB maxB fuel q sN sD : Nat) (acc : List Attempt)
    (hq : ¬ 10 < q) (hover : maxB < (attemptAt enc w h q sN sD).size)
    (hdecay : 10 * (sN * 9) < 3 * (sD * 10)) :
    resizeLoop enc w h minB maxB (fuel + 1) q sN sD acc
        = (some (false, (attemptAt enc w h q sN sD).size), acc ++ [attemptAt enc w h q sN sD])
      ∧ 0 < (attemptAt enc w h q sN sD).size
      ∧ (acc ++ [attemptAt enc w h q sN sD]).getLast? = some (attemptAt enc w h q sN sD) := by
  refine ⟨?_, by omega, List.getLast?_concat _⟩
  have h1 : ¬ (minB ≤ (attemptAt enc w h q sN sD).size
      ∧ (attemptAt enc w h q sN sD).size ≤ maxB) := by omega
  simp only [resizeLoop]
  rw [if_neg h1, if_pos hover, if_neg hq, if_pos hdecay]

theorem resize_scale_floor_exit_witness :
    resizeLoop (fun _ _ _ => 2000000) 100 100 (100 * 1024) (1024 * 1024) 1 10
        31381059609 100000000000 []
        = (some (false,
            (attemptAt (fun _ _ _ => 2000000) 100 100 10 31381059609 100000000000).size),
          [] ++ [attemptAt (fun _ _ _ => 2000000) 100 100 10 31381059609 100000000000])
      ∧ 0 < (attemptAt (fun _ _ _ => 2000000) 100 100 10 31381059609 100000000000).size
      ∧ ([] ++ [attemptAt (fun _ _ _ => 2000000) 100 100 10 31381059609 100000000000]).getLast?
          = some (attemptAt (fun _ _ _ => 2000000) 100 100 10 31381059609 100000000000) :=
  resize_scale_floor_exit (fun _ _ _ => 2000000) 100 100 (100 * 1024) (1024 * 1024) 0 10
    31381059609 100000000000 [] (by decide) (by decide) (by decide)

/-- Every attempt of a run satisfies `P` when `P` holds of the attempt
made at any state reachable under the state invariant `S`. -/
lemma resizeLoop_trace_all (enc : Nat → Nat → Nat → Nat) (w h minB maxB : Nat)
    (S : Nat → Nat → Nat → Prop) (P : Attempt → Prop)
    (hstep1 : ∀ q sN sD, S q sN sD → 10 < q → S (q - 5) sN sD)
    (hstep2 : ∀ q sN sD, S q sN sD → ¬ 10 < q → S q (sN * 9) (sD * 10))
    (hstep3 : ∀ q sN sD, S q sN sD → q < 95 → S (q + 5) sN sD)
    (hatt : ∀ q sN sD, S q sN sD → P (attemptAt enc w h q sN sD)) :
    ∀ fuel q sN sD acc, S q sN sD → (∀ a ∈ acc, P a) →
      ∀ a ∈ (resizeLoop enc w h minB maxB fuel q sN sD acc).2, P a := by
  intro fuel
  induction fuel with
  | zero =>
    intro q sN sD acc hS hacc a ha
    exact hacc a (by simpa [resizeLoop] using ha)
  | succ n ih =>
    intro q sN sD acc hS hacc a ha
    have hacc' : ∀ a ∈ acc ++ [attemptAt enc w h q sN sD], P a := by
      intro b hb
      rcases List.mem_append.mp hb with hb | hb
      · exact hacc b hb
      · rw [List.mem_singleton.mp hb]
        exact hatt q sN sD hS
    simp only [resizeLoop] at ha
    by_cases hin :
        minB ≤ (attemptAt enc w h q sN sD).size ∧ (attemptAt enc w h q sN sD).size ≤ maxB
    · rw [if_pos hin] at ha
      exact hacc' a ha
    · rw [if_neg hin] at ha
      by_cases hover : maxB < (attemptAt enc w h q sN sD).size
      · rw [if_pos hover] at ha
        by_cases hq : 10 < q
        · rw [if_pos hq] at ha
          exact ih _ _ _ _ (hstep1 q sN sD hS hq) hacc' a ha
        · rw [if_neg hq] at ha
          by_cases hdec : 10 * (sN * 9) < 3 * (sD * 10)
          · rw [if_pos hdec] at ha
            exact hacc' a ha
          · rw [if_neg hdec] at ha
            exact ih _ _ _ _ (hstep2 q sN sD hS hq) hacc' a ha
      · rw [if_neg hover] at ha
        by_cases hq95 : q < 95
        · rw [if_pos hq95] at ha
          exact ih _ _ _ _ (hstep3 q sN sD hS hq95) hacc' a ha
        · rw [if_neg hq95] at ha
          exact hacc' a ha

/-- Claim C9: every encode attempt of a `resize_image` run uses a quality in
`[MIN_QUALITY, 95] = [10, 95]` and a scale `sN / sD` in `(0, 1]`
(`0 < sN ∧ sN ≤ sD`); the run starts at `quality = 90`, `scale = 1`. -/
theorem resize_attempt_ranges (enc : Nat → Nat → Nat → Nat)
    (w h minKB maxKB fuel : Nat) (a : Attempt)
    (ha : a ∈ (resize_image (some (w, h)) enc (minKB, maxKB) fuel).2) :
    10 ≤ a.quality ∧ a.quality ≤ 95 ∧ 0 < a.scaleN ∧ a.scaleN ≤ a.scaleD := by
  refine resizeLoop_trace_all enc w h (minKB * 1024) (maxKB * 1024)
    (fun q sN sD => 10 ≤ q ∧ q ≤ 95 ∧ q % 5 = 0 ∧ 0 < sN ∧ sN ≤ sD)
    (fun a => 10 ≤ a.quality ∧ a.quality ≤ 95 ∧ 0 < a.scaleN ∧ a.scaleN ≤ a.scaleD)
    (fun q sN sD hS hq => by omega)
    (fun q sN sD hS hq => by omega)
    (fun q sN sD hS hq => by omega)
    (fun q sN sD hS => by simp only [attemptAt]; exact ⟨hS.1, hS.2.1, hS.2.2.2⟩)
    fuel 90 1 1 [] (by omega) (by simp) a (by simpa [resize_image] using ha)

theorem resize_attempt_ranges_witness :
    attemptAt (fun _ _ _ => 5) 10 20 90 1 1
        ∈ (resize_image (some (10, 20)) (fun _ _ _ => 5) (100, 1024) 2).2
      ∧ (10 ≤ (attemptAt (fun _ _ _ => 5) 10 20 90 1 1).quality
        ∧ (attemptAt (fun _ _ _ => 5) 10 20 90 1 1).quality ≤ 95
        ∧ 0 < (attemptAt (fun _ _ _ => 5) 10 20 90 1 1).scaleN
        ∧ (attemptAt (fun _ _ _ => 5) 10 20 90 1 1).scaleN
            ≤ (attemptAt (fun _ _ _ => 5) 10 20 90 1 1).scaleD) :=
  ⟨by decide,
    resize_attempt_ranges (fun _ _ _ => 5) 10 20 100 1024 2
      (attemptAt (fun _ _ _ => 5) 10 20 90 1 1) (by decide)⟩

/-- Claim C4 (amended): in every iteration with `scale < 1` the image is
resampled with `Image.LANCZOS` to the **truncated** dimensions
`(int(w * scale), int(h * scale)) = (w * sN / sD, h * sN / sD)` (floor,
not round); with `scale = 1` the original buffer is used unresampled. -/
theorem resample_floor_lanczos (enc : Nat → Nat → Nat → Nat)
    (w h minKB maxKB fuel : Nat) (a : Attempt)
    (ha : a ∈ (resize_image (some (w, h)) enc (minKB, maxKB) fuel).2) :
    (a.scaleN < a.scaleD →
      a.resampled = true ∧ a.usedFilter = some ResampleFilter.lanczos
        ∧ a.encW = w * a.scaleN / a.scaleD ∧ a.encH = h * a.scaleN / a.scaleD)
    ∧ (¬ a.scaleN < a.scaleD →
      a.resampled = false ∧ a.usedFilter = none ∧ a.encW = w ∧ a.encH = h) := by
  refine resizeLoop_trace_all enc w h (minKB * 1024) (maxKB * 1024)
    (fun _ _ _ => True)
    (fun a =>
      (a.scaleN < a.scaleD →
        a.resampled = true ∧ a.usedFilter = some ResampleFilter.lanczos
          ∧ a.encW = w * a.scaleN / a.scaleD ∧ a.encH = h * a.scaleN / a.scaleD)
      ∧ (¬ a.scaleN < a.scaleD →
        a.resampled = false ∧ a.usedFilter = none ∧ a.encW = w ∧ a.encH = h))
    (fun _ _ _ _ _ => trivial) (fun _ _ _ _ _ => trivial) (fun _ _ _ _ _ => trivial)
    (fun q sN sD _ => ?_)
    fuel 90 1 1 [] trivial (by simp) a (by simpa [resize_image] using ha)
  by_cases hs : sN < sD <;> simp [attemptAt, hs]

theorem resample_floor_lanczos_witness :
    attemptAt (fun _ _ _ => 5) 10 20 90 1 1
        ∈ (resize_image (some (10, 20)) (fun _ _ _ => 5) (100, 1024) 2).2
      ∧ (((attemptAt (fun _ _ _ => 5) 10 20 90 1 1).scaleN
            < (attemptAt (fun _ _ _ => 5) 10 20 90 1 1).scaleD →
          (attemptAt (fun _ _ _ => 5) 10 20 90 1 1).resampled = true
            ∧ (attemptAt (fun _ _ _ => 5) 10 20 90 1 1).usedFilter
                = some ResampleFilter.lanczos
            ∧ (attemptAt (fun _ _ _ => 5) 10 20 90 1 1).encW
                = 10 * (attemptAt (fun _ _ _ => 5) 10 20 90 1 1).scaleN
                    / (attemptAt (fun _ _ _ => 5) 10 20 90 1 1).scaleD
            ∧ (attemptAt (fun _ _ _ => 5) 10 20 90 1 1).encH
                = 20 * (attemptAt (fun _ _ _ => 5) 10 20 90 1 1).scaleN
                    / (attemptAt (fun _ _ _ => 5) 10 20 90 1 1).scaleD)
        ∧ (¬ (attemptAt (fun _ _ _ => 5) 10 20 90 1 1).scaleN
            < (attemptAt (fun _ _ _ => 5) 10 20 90 1 1).scaleD →
          (attemptAt (fun _ _ _ => 5) 10 20 90 1 1).resampled = false
            ∧ (attemptAt (fun _ _ _ => 5) 10 20 90 1 1).usedFilter = none
            ∧ (attemptAt (fun _ _ _ => 5) 10 20 90 1 1).encW = 10
            ∧ (attemptAt (fun _ _ _ => 5) 10 20 90 1 1).encH = 20)) :=
  ⟨by decide,
    resample_floor_lanczos (fun _ _ _ => 5) 10 20 100 1024 2
      (attemptAt (fun _ _ _ => 5) 10 20 90 1 1) (by decide)⟩

/-- Claim C4 (counterexample to the claim as stated): with a 13×13 image and
an encoder that always produces 2,000,000 bytes for the band
`(100KB, 1024KB)`, the 18th iteration runs at scale `0.9 = 9/10` and the
code resamples to `int(13 * 0.9) = 11` pixels, whereas rounding as the
claim states would give `round(11.7) = 12`. -/
theorem resample_round_cex :
    ((ImageResizer.resize_image (some (13, 13)) (fun _ _ _ => 2000000) (100, 1024)
          18).2.getLast?.map (fun a => (a.scaleN, a.scaleD, a.resampled, a.encW, a.encH)))
        = some (9, 10, true, 11, 11)
      ∧ round ((13 : ℚ) * (9 / 10)) = 12
      ∧ (11 : Nat) ≠ 12 := by
  refine ⟨by decide, ?_, by decide⟩
  rw [round_eq, show ((13 : ℚ) * (9 / 10) + 1 / 2) = 61 / 5 by norm_num, Int.floor_eq_iff]
  constructor <;> norm_num

/-- One over-maximum step above the quality floor: the loop recurses at
`quality - 5`, same scale. -/
lemma resizeLoop_step_over (enc : Nat → Nat → Nat → Nat)
    (w h minB maxB fuel q sN sD : Nat) (acc : List Attempt)
    (hover : maxB < (attemptAt enc w h q sN sD).size) (hq : 10 < q) :
    resizeLoop enc w h minB maxB (fuel + 1) q sN sD acc
      = resizeLoop enc w h minB maxB fuel (q - 5) sN sD (acc ++ [attemptAt enc w h q sN sD]) := by
  have h1 : ¬ (minB ≤ (attemptAt enc w h q sN sD).size
      ∧ (attemptAt enc w h q sN sD).size ≤ maxB) := by omega
  simp only [resizeLoop]
  rw [if_neg h1, if_pos hover, if_pos hq]

/-- One under-minimum step below quality 95: the loop recurses at
`quality + 5`, same scale. -/
lemma resizeLoop_step_under (enc : Nat → Nat → Nat → Nat)
    (w h minB maxB fuel q sN sD : Nat) (acc : List Attempt)
    (hband : minB ≤ maxB) (hunder : (attemptAt enc w h q sN sD).size < minB) (hq : q < 95) :
    resizeLoop enc w h minB maxB (fuel + 1) q sN sD acc
      = resizeLoop enc w h minB maxB fuel (q + 5) sN sD (acc ++ [attemptAt enc w h q sN sD]) := by
  have h1 : ¬ (minB ≤ (attemptAt enc w h q sN sD).size
      ∧ (attemptAt enc w h q sN sD).size ≤ maxB) := by omega
  have h2 : ¬ maxB < (attemptAt enc w h q sN sD).size := by omega
  simp only [resizeLoop]
  rw [if_neg h1, if_neg h2, if_pos hq]

/-- With an encoder that jumps from 1,000 bytes (quality ≤ 85) to
2,000,000 bytes (quality ≥ 90) across the band `(100KB, 1024KB)`, the
loop started at quality 90 or 85 (scale 1) never returns: it alternates
`90 → 85 → 90 → …`. -/
lemma resize_osc_aux :
    ∀ (fuel : Nat) (acc : List Attempt),
      (resizeLoop (fun q _ _ => if 90 ≤ q then 2000000 else 1000) 100 100 (100 * 1024)
          (1024 * 1024) fuel 90 1 1 acc).1 = none
      ∧ (resizeLoop (fun q _ _ => if 90 ≤ q then 2000000 else 1000) 100 100 (100 * 1024)
          (1024 * 1024) fuel 85 1 1 acc).1 = none := by
  intro fuel
  induction fuel with
  | zero => intro acc; exact ⟨rfl, rfl⟩
  | succ n ih =>
    intro acc
    constructor
    · rw [resizeLoop_step_over (fun q _ _ => if 90 ≤ q then 2000000 else 1000) 100 100
        (100 * 1024) (1024 * 1024) n 90 1 1 acc (by decide) (by decide)]
      exact (ih _).2
    · rw [resizeLoop_step_under (fun q _ _ => if 90 ≤ q then 2000000 else 1000) 100 100
        (100 * 1024) (1024 * 1024) n 85 1 1 acc (by decide) (by decide) (by decide)]
      exact (ih _).1

/-- Claim C1 fails on the code: `resize_image` has no iteration ceiling.  With
a 100×100 image whose encoded size is 2,000,000 bytes at quality ≥ 90 and
1,000 bytes at quality ≤ 85, and the band `(100KB, 1024KB)` lying
strictly inside that gap, the loop oscillates between qualities 90 and 85
at full scale forever: for every fuel bound it has not returned. -/
theorem resize_osc_no_exit :
    ∀ fuel : Nat,
      (ImageResizer.resize_image (some (100, 100))
          (fun q _ _ => if 90 ≤ q then 2000000 else 1000) (100, 1024) fuel).1 = none := by
  intro fuel
  exact (resize_osc_aux fuel []).1

/-- With the `running` flag never cleared, the single `resize_completed`
payload is the accumulator followed by one result tuple per accepted
file, in input order. -/
lemma runAux_payload (rf : String → String → Bool × Nat) (dir : String) (total : Nat) :
    ∀ (files : List String) (i : Nat) (acc : List (String × String × Bool × Nat)),
      jobDonePayloads (ResizeWorker.runAux rf dir (fun _ => true) total i files acc)
        = [acc ++ acceptedOutcomes rf dir files] := by
  intro files
  induction files with
  | nil =>
    intro i acc
    simp [ResizeWorker.runAux, jobDonePayloads, acceptedOutcomes]
  | cons f rest ih =>
    intro i acc
    by_cases hf : fileAccepted f
    · simp only [ResizeWorker.runAux, hf, Bool.true_eq_false, if_false, if_true,
        jobDonePayloads, List.filterMap_cons]
      simpa [jobDonePayloads, acceptedOutcomes, List.filter_cons, hf] using
        ih (i + 1) (acc ++ [(f, joinPath dir (basename f), rf f (joinPath dir (basename f)))])
    · simp only [ResizeWorker.runAux, hf, Bool.true_eq_false, if_false]
      simpa [acceptedOutcomes, List.filter_cons, hf] using ih (i + 1) acc

/-- With the `running` flag never cleared, the emitted progress
percentages are `int((i + 1) / total * 100)` over the global indices `i`
of the accepted files. -/
lemma runAux_percents (rf : String → String → Bool × Nat) (dir : String) (total : Nat) :
    ∀ (files : List String) (i : Nat) (acc : List (String × String × Bool × Nat)),
      progressPercents (ResizeWorker.runAux rf dir (fun _ => true) total i files acc)
        = (acceptedIdxFrom i files).map (fun idx => (idx + 1) * 100 / total) := by
  intro files
  induction files with
  | nil =>
    intro i acc
    simp [ResizeWorker.runAux, progressPercents, acceptedIdxFrom]
  | cons f rest ih =>
    intro i acc
    by_cases hf : fileAccepted f
    · simp only [ResizeWorker.runAux, hf, Bool.true_eq_false, if_false, if_true,
        progressPercents, List.filterMap_cons, acceptedIdxFrom, List.map_cons]
      simpa [progressPercents] using
        ih (i + 1) (acc ++ [(f, joinPath dir (basename f), rf f (joinPath dir (basename f)))])
    · simp only [ResizeWorker.runAux, hf, Bool.true_eq_false, if_false, acceptedIdxFrom]
      exact ih (i + 1) acc

/-- The accepted-index list is as long as the accepted-file count. -/
lemma acceptedIdxFrom_length :
    ∀ (files : List String) (i : Nat),
      (acceptedIdxFrom i files).length = countAccepted files := by
  intro files
  induction files with
  | nil => intro i; rfl
  | cons f rest ih =>
    intro i
    have hrest := ih (i + 1)
    by_cases hf : fileAccepted f <;>
      simp [acceptedIdxFrom, countAccepted, List.filter_cons, hf, countAccepted] at hrest ⊢ <;>
      omega

/-- Every accepted index starting from `i` is at least `i`. -/
lemma acceptedIdxFrom_ge :
    ∀ (files : List String) (i : Nat), ∀ x ∈ acceptedIdxFrom i files, i ≤ x := by
  intro files
  induction files with
  | nil => intro i x hx; simp [acceptedIdxFrom] at hx
  | cons f rest ih =>
    intro i x hx
    by_cases hf : fileAccepted f
    · simp only [acceptedIdxFrom, hf, if_true, List.mem_cons] at hx
      rcases hx with rfl | hx
      · exact Nat.le_refl x
      · exact Nat.le_of_succ_le (ih (i + 1) x hx)
    · simp only [acceptedIdxFrom, hf, if_false] at hx
      exact Nat.le_of_succ_le (ih (i + 1) x hx)

/-- The accepted indices are strictly increasing. -/
lemma acceptedIdxFrom_sorted :
    ∀ (files : List String) (i : Nat), (acceptedIdxFrom i files).Pairwise (· < ·) := by
  intro files
  induction files with
  | nil => intro i; simp [acceptedIdxFrom]
  | cons f rest ih =>
    intro i
    by_cases hf : fileAccepted f
    · simp only [acceptedIdxFrom, hf, if_true]
      exact List.Pairwise.cons
        (fun x hx => Nat.lt_of_succ_le (acceptedIdxFrom_ge rest (i + 1) x hx)) (ih (i + 1))
    · simp only [acceptedIdxFrom, hf, if_false]
      exact ih (i + 1)

/-- One result tuple per accepted file. -/
lemma acceptedOutcomes_length (rf : String → String → Bool × Nat) (dir : String)
    (files : List String) :
    (acceptedOutcomes rf dir files).length = countAccepted files := by
  simp [acceptedOutcomes, countAccepted]

/-- Clearing the `running` flag after index `j` truncates the run: the
events of a run whose flag reads true exactly up to index `j` are those
of an uninterrupted run over the first `j + 1 - i` remaining files. -/
lemma runAux_stop (rf : String → String → Bool × Nat) (dir : String) (total j : Nat) :
    ∀ (files : List String) (i : Nat) (acc : List (String × String × Bool × Nat)),
      i ≤ j + 1 →
      ResizeWorker.runAux rf dir (fun x => decide (x ≤ j)) total i files acc
        = ResizeWorker.runAux rf dir (fun _ => true) total i (files.take (j + 1 - i)) acc := by
  intro files
  induction files with
  | nil => intro i acc hi; simp [ResizeWorker.runAux, List.take_nil]
  | cons f rest ih =>
    intro i acc hi
    rcases Nat.lt_or_ge i (j + 1) with hlt | hge
    · have hij : i ≤ j := by omega
      rw [show j + 1 - i = (j - i) + 1 from by omega, List.take_succ_cons]
      simp only [ResizeWorker.runAux]
      rw [if_neg (show ¬ (decide (i ≤ j) = false) from by simp [hij]),
        if_neg (show ¬ (true = false) from by simp)]
      by_cases hf : fileAccepted f
      · rw [if_pos hf, if_pos hf]
        have hrec := ih (i + 1)
          (acc ++ [(f, joinPath dir (basename f), rf f (joinPath dir (basename f)))]) (by omega)
        rw [show j + 1 - (i + 1) = j - i from by omega] at hrec
        rw [hrec]
      · rw [if_neg hf, if_neg hf]
        have hrec := ih (i + 1) acc (by omega)
        rw [show j + 1 - (i + 1) = j - i from by omega] at hrec
        exact hrec
    · have hi1 : i = j + 1 := by omega
      subst hi1
      rw [show j + 1 - (j + 1) = 0 from by omega, List.take_zero]
      simp only [ResizeWorker.runAux]
      rw [if_pos (show decide (j + 1 ≤ j) = false from by simp)]

/-- A run over files none of which pass the extension filter emits
nothing but the final completion event with the accumulated results,
whatever the `running` flag does. -/
lemma runAux_no_accepted (rf : String → String → Bool × Nat) (dir : String) (total : Nat)
    (running : Nat → Bool) :
    ∀ (files : List String) (i : Nat) (acc : List (String × String × Bool × Nat)),
      (∀ f ∈ files, fileAccepted f = false) →
      ResizeWorker.runAux rf dir running total i files acc = [Event.jobDone acc] := by
  intro files
  induction files with
  | nil => intro i acc _; rfl
  | cons f rest ih =>
    intro i acc h
    simp only [ResizeWorker.runAux]
    by_cases hr : running i = false
    · rw [if_pos hr]
    · rw [if_neg hr, if_neg (by simp [h f (List.mem_cons_self f rest)])]
      exact ih (i + 1) acc (fun g hg => h g (List.mem_cons_of_mem f hg))

/-- Claim C2 (counterexample to the claim as stated): for the input
`["a.jpg", "b.txt"]` (one accepted file, `M = 1`), the claimed formula
`round((index + 1) / total_accepted * 100)` would make the single
progress event carry `100`; the code emits `int((0 + 1) / 2 * 100) = 50`
because it uses the full-list index and the full-list length. -/
theorem worker_progress_cex :
    progressPercents (ResizeWorker.run (fun _ _ => (true, 200 * 1024)) ["a.jpg", "b.txt"]
        "out" (fun _ => true)) = [50]
      ∧ countAccepted ["a.jpg", "b.txt"] = 1
      ∧ (50 : Nat) ≠ 100 := by decide

/-- Claim C2 (amended): the worker emits one progress event per accepted
file, in order, with `percent = int((i + 1) / N * 100)` where `i` is the
file's index in the **full** input list and `N` the **full** input
length (exact arithmetic for the Python float expression); consequently
there are exactly `M` events (`M` = number of accepted files) and the
percentages are non-decreasing — but the last need not be `100` and the
sequence need not be strictly increasing. -/
theorem worker_progress_formula (rf : String → String → Bool × Nat) (dir : String)
    (files : List String) :
    progressPercents (ResizeWorker.run rf files dir (fun _ => true))
        = (acceptedIdxFrom 0 files).map (fun i => (i + 1) * 100 / files.length)
      ∧ (progressPercents (ResizeWorker.run rf files dir (fun _ => true))).length
          = countAccepted files
      ∧ (progressPercents (ResizeWorker.run rf files dir (fun _ => true))).Pairwise (· ≤ ·) := by
  have h1 := runAux_percents rf dir files.length files 0 []
  refine ⟨h1, ?_, ?_⟩
  · rw [show ResizeWorker.run rf files dir (fun _ => true)
        = ResizeWorker.runAux rf dir (fun _ => true) files.length 0 files [] from rfl, h1,
      List.length_map, acceptedIdxFrom_length]
  · rw [show ResizeWorker.run rf files dir (fun _ => true)
        = ResizeWorker.runAux rf dir (fun _ => true) files.length 0 files [] from rfl, h1]
    refine List.Pairwise.map _ ?_ (acceptedIdxFrom_sorted files 0)
    intro a b hab
    exact Nat.div_le_div_right (by omega)

/-- Claim C3 (counterexample to the claim as stated): a supported file whose
decode fails (`resize_image` returns `(False, 0)`) **is** appended to the
batch results as `(path, out_path, False, 0)` — the completion payload is
not the empty list the claim would require. -/
theorem decode_failure_cex :
    ImageResizer.resize_image none (fun _ _ _ => 0) (100, 1024) 5 = (some (false, 0), [])
      ∧ jobDonePayloads (ResizeWorker.run (fun _ _ => (false, 0)) ["bad.jpg"] "out"
          (fun _ => true)) = [[("bad.jpg", "out/bad.jpg", false, 0)]]
      ∧ [[("bad.jpg", "out/bad.jpg", false, 0)]]
          ≠ [([] : List (String × String × Bool × Nat))] := by decide

/-- Claim C3 (amended): a decode failure makes `resize_image` return
`(False, 0)` (the `except` branch), and the worker still records such a
file: the single completion payload lists one outcome for **every**
accepted file — including decode failures, recorded with
`success = False`, `size = 0` — so the failure never aborts the batch
(all later accepted files are still processed and appear). -/
theorem decode_failure_counted (rf : String → String → Bool × Nat) (dir : String)
    (files : List String) (enc : Nat → Nat → Nat → Nat) (target : Nat × Nat) (fuel : Nat) :
    ImageResizer.resize_image none enc target fuel = (some (false, 0), [])
      ∧ jobDonePayloads (ResizeWorker.run rf files dir (fun _ => true))
          = [acceptedOutcomes rf dir files] := by
  refine ⟨rfl, ?_⟩
  have h := runAux_payload rf dir files.length files 0 []
  simpa using h

/-- Claim C8: if the `running` flag reads true exactly up to the index `j` of
the `k`-th accepted file (cleared after that file completes), the whole
run equals the uninterrupted run over the first `j + 1` files — so no
later file is ever attempted — and the completion event is emitted
exactly once, carrying exactly the `k` results accumulated so far. -/
theorem worker_cancel_after_k (rf : String → String → Bool × Nat) (dir : String)
    (files : List String) (j k : Nat) (hj : j < files.length)
    (_hjacc : fileAccepted (files.get ⟨j, hj⟩) = true)
    (hk : countAccepted (files.take (j + 1)) = k) :
    ResizeWorker.run rf files dir (fun i => decide (i ≤ j))
        = ResizeWorker.runAux rf dir (fun _ => true) files.length 0 (files.take (j + 1)) []
      ∧ jobDonePayloads (ResizeWorker.run rf files dir (fun i => decide (i ≤ j)))
          = [acceptedOutcomes rf dir (files.take (j + 1))]
      ∧ (acceptedOutcomes rf dir (files.take (j + 1))).length = k := by
  have h1 := runAux_stop rf dir files.length j files 0 [] (by omega)
  refine ⟨h1, ?_, ?_⟩
  · rw [show ResizeWorker.run rf files dir (fun i => decide (i ≤ j))
        = ResizeWorker.runAux rf dir (fun i => decide (i ≤ j)) files.length 0 files []
        from rfl, h1]
    have h2 := runAux_payload rf dir files.length (files.take (j + 1 - 0)) 0 []
    simpa using h2
  · rw [acceptedOutcomes_length, hk]

theorem worker_cancel_after_k_witness :
    ResizeWorker.run (fun _ _ => (true, 7)) ["a.jpg", "b.jpg"] "out" (fun i => decide (i ≤ 0))
        = ResizeWorker.runAux (fun _ _ => (true, 7)) "out" (fun _ => true)
            (["a.jpg", "b.jpg"] : List String).length 0 ((["a.jpg", "b.jpg"] :
              List String).take (0 + 1)) []
      ∧ jobDonePayloads (ResizeWorker.run (fun _ _ => (true, 7)) ["a.jpg", "b.jpg"] "out"
            (fun i => decide (i ≤ 0)))
          = [acceptedOutcomes (fun _ _ => (true, 7)) "out"
              ((["a.jpg", "b.jpg"] : List String).take (0 + 1))]
      ∧ (acceptedOutcomes (fun _ _ => (true, 7)) "out"
          ((["a.jpg", "b.jpg"] : List String).take (0 + 1))).length = 1 :=
  worker_cancel_after_k (fun _ _ => (true, 7)) "out" ["a.jpg", "b.jpg"] 0 1
    (by decide) (by decide) (by decide)

/-- Claim C10: when no input file passes the extension filter (in particular
for the empty list), the worker — under any behaviour of the `running`
flag — emits exactly the single completion event with an empty result
list: no progress event and no per-file event at all. -/
theorem worker_all_skipped (rf : String → String → Bool × Nat) (dir : String)
    (files : List String) (running : Nat → Bool)
    (h : ∀ f ∈ files, fileAccepted f = false) :
    ResizeWorker.run rf files dir running = [Event.jobDone []]
      ∧ progressPercents (ResizeWorker.run rf files dir running) = []
      ∧ fileDoneEvents (ResizeWorker.run rf files dir running) = [] := by
  have h1 := runAux_no_accepted rf dir files.length running files 0 [] h
  refine ⟨h1, ?_, ?_⟩ <;>
    rw [show ResizeWorker.run rf files dir running
      = ResizeWorker.runAux rf dir running files.length 0 files [] from rfl, h1] <;> rfl

theorem worker_all_skipped_witness :
    ResizeWorker.run (fun _ _ => (true, 7)) ["x.txt", "y.gif"] "out" (fun _ => true)
        = [Event.jobDone []]
      ∧ progressPercents (ResizeWorker.run (fun _ _ => (true, 7)) ["x.txt", "y.gif"] "out"
          (fun _ => true)) = []
      ∧ fileDoneEvents (ResizeWorker.run (fun _ _ => (true, 7)) ["x.txt", "y.gif"] "out"
          (fun _ => true)) = [] :=
  worker_all_skipped (fun _ _ => (true, 7)) "out" ["x.txt", "y.gif"] (fun _ => true)
    (by decide)
